import Mathlib

/-!
Verification development for the advanced-http-client library
(src/index.ts, latest revision). The definitions below are a shallow
embedding of the request configuration merge engine, the interceptor
pipeline, and the cancellation/timeout coordinator of the HttpClient
class. JavaScript objects and Map values are modelled as association
lists over String keys; JavaScript truthiness of string values is
modelled explicitly where the source relies on it.
-/

namespace HttpModel

/-- Association map with JS object semantics: String keys, lookup of the
first matching entry. Models both plain header records and Map values. -/
abbrev SMap (α : Type) := List (String × α)

/-- Headers record, as in Record String String on the TS side. -/
abbrev Hdrs := SMap String

/-- Lookup of a key, first match wins (JS objects and Maps have unique keys). -/
def aget {α : Type} : SMap α → String → Option α
  | [], _ => none
  | (k', v) :: t, k => if k' = k then some v else aget t k

/-- Key presence test, as in the `in` operator or Map.has. -/
def ahas {α : Type} (h : SMap α) (k : String) : Bool := (aget h k).isSome

/-- Replace the value at every entry with the given key (in place, keeping
order), as JS assignment to an existing object key does. -/
def asetReplace {α : Type} : SMap α → String → α → SMap α
  | [], _, _ => []
  | (k', w) :: t, k, v =>
    if k' = k then (k, v) :: asetReplace t k v else (k', w) :: asetReplace t k v

/-- JS object/Map assignment: replace in place when the key is present,
append at the end otherwise. -/
def aset {α : Type} (h : SMap α) (k : String) (v : α) : SMap α :=
  if ahas h k then asetReplace h k v else h ++ [(k, v)]

/-- Map.delete: remove the entry with the given key. -/
def adel {α : Type} : SMap α → String → SMap α
  | [], _ => []
  | (k', w) :: t, k => if k' = k then adel t k else (k', w) :: adel t k

/-- The keys of the map are pairwise distinct, as is always true of a JS
object or Map. -/
def KeysNodup {α : Type} (h : SMap α) : Prop := (h.map Prod.fst).Nodup

instance {α : Type} (h : SMap α) : Decidable (KeysNodup h) := by
  unfold KeysNodup; infer_instance

/-- First-of-two option combinator: the JS precedence idiom where the
first defined value wins. -/
def ofirst {α : Type} (a b : Option α) : Option α :=
  match a with
  | some x => some x
  | none => b

/-- Object spread merge: assign every entry of b into a, later entries
winning, as in the spread and Object.assign idioms of the source. -/
def hmerge {α : Type} (a b : SMap α) : SMap α :=
  b.foldl (fun acc p => aset acc p.1 p.2) a

/-! ## Header merge resolver (HttpClient.mergeConfig) -/

/-- Content type constant CONTENT_TYPES.JSON from the source. -/
def jsonCT : String := "application/json"

/-- JS truthiness of the string stored at a key: false when the key is
absent or holds the empty string. Models checks such as
bang-mergedHeaders-Accept in the source. -/
def truthyAt (h : Hdrs) (k : String) : Bool :=
  match aget h k with
  | some v => v ≠ ""
  | none => false

/-- Fold adding each global header only when its key is not already
present, as the Object.entries(globalHeaders).forEach loop with the in
check does in mergeConfig. -/
def addGlobals (m : Hdrs) (g : Hdrs) : Hdrs :=
  g.foldl (fun acc p => if ahas acc p.1 then acc else aset acc p.1 p.2) m

/-- Non-isolated branch of mergeConfig: spread instance headers, then the
per-request headers, then add absent global headers, then default the
Accept header when its value is falsy. -/
def mergeHeadersNonIso (g i r : Hdrs) : Hdrs :=
  let m1 := hmerge i r
  let m2 := addGlobals m1 g
  if truthyAt m2 "Accept" then m2 else aset m2 "Accept" jsonCT

/-- Selective import loop of the isolated branch: for each name in the
includeHeaders list, copy it from instance headers when present there,
else from global headers when present there. -/
def includeImport (i g : Hdrs) (inc : List String) : Hdrs :=
  inc.foldl
    (fun acc key =>
      match aget i key with
      | some v => aset acc key v
      | none =>
        match aget g key with
        | some v => aset acc key v
        | none => acc)
    []

/-- Isolated branch of mergeConfig: start from an empty record, run the
includeHeaders import when the list is given, then assign the per-request
headers on top. No default Accept is applied. -/
def mergeHeadersIso (g i : Hdrs) (includeHeaders : Option (List String)) (r : Hdrs) : Hdrs :=
  let base :=
    match includeHeaders with
    | some inc => includeImport i g inc
    | none => ([] : Hdrs)
  hmerge base r

/-! ## JSON values and the platform JSON.stringify collaborator

The body handed to requestWithBody is an arbitrary JS value. We model it
as a JSON-expressible value and model the platform function
JSON.stringify on it (an external collaborator of the library, per the
specification: the transport receives the serialized text). -/

inductive JsonV : Type
  | jnull : JsonV
  | jbool : Bool → JsonV
  | jnum : Int → JsonV
  | jstr : String → JsonV
  | jarr : List JsonV → JsonV
  | jobj : List (String × JsonV) → JsonV

/-- Escape of a string for JSON output: backslash and double quote are
escaped (control character escapes are not needed for the inputs used
here and are omitted). -/
def jsonEscape (s : String) : String :=
  String.mk (s.data.foldr
    (fun c acc =>
      if c = '\\' then '\\' :: '\\' :: acc
      else if c = '\"' then '\\' :: '\"' :: acc
      else c :: acc)
    [])

mutual

/-- Model of the platform JSON.stringify on JSON-expressible values. -/
def jsonStringify : JsonV → String
  | .jnull => "null"
  | .jbool true => "true"
  | .jbool false => "false"
  | .jnum n => toString n
  | .jstr s => "\"" ++ jsonEscape s ++ "\""
  | .jarr xs => "[" ++ jsonStringifyArr xs ++ "]"
  | .jobj fs => "\x7b" ++ jsonStringifyObj fs ++ "\x7d"

/-- Comma-joined serialization of array elements. -/
def jsonStringifyArr : List JsonV → String
  | [] => ""
  | [x] => jsonStringify x
  | x :: y :: rest => jsonStringify x ++ "," ++ jsonStringifyArr (y :: rest)

/-- Comma-joined serialization of object fields. -/
def jsonStringifyObj : List (String × JsonV) → String
  | [] => ""
  | [(k, v)] => "\"" ++ jsonEscape k ++ "\":" ++ jsonStringify v
  | (k, v) :: y :: rest =>
    "\"" ++ jsonEscape k ++ "\":" ++ jsonStringify v ++ "," ++ jsonStringifyObj (y :: rest)

end

/-! ## Body-bearing verbs (HttpClient.requestWithBody) -/

/-- Resolved options produced by requestWithBody before it delegates to
request: the merged headers, the method, and the body string handed to
fetch (none when no body value was provided). -/
structure WithBodyOpts where
  method : String
  headers : Hdrs
  body : Option String
deriving DecidableEq

/-- Model of HttpClient.requestWithBody for the non-isolated path: merge
the configuration, set the method, and when a body value is provided,
assign the JSON-serialized body and default the Content-Type header when
its current value is falsy. -/
def requestWithBody (g i r : Hdrs) (method : String) (body : Option JsonV) :
    WithBodyOpts :=
  let hs := mergeHeadersNonIso g i r
  match body with
  | none => ⟨method, hs, none⟩
  | some b =>
    let hs2 := if truthyAt hs "Content-Type" then hs else aset hs "Content-Type" jsonCT
    ⟨method, hs2, some (jsonStringify b)⟩

/-! ## Cancellation and timeout coordinator (HttpClient.request wiring)

AbortController values are identified by numbers allocated from a
counter; an abort signal is either one supplied by the caller in the
options or the signal of a controller made by the coordinator. The
instance controller map and the process-wide globalControllers map are
both part of the world state. The model follows the source with one
instance client; a client created by the static entry points is marked
static (its own instance map starts empty) and targets the global map. -/

/-- The reserved key ANONYMOUS_KEY from the source. -/
def anonymousKey : String := "__anonymous__"

/-- An abort signal: either supplied by the caller in the options, or the
signal of a coordinator-made AbortController. -/
inductive Sig : Type
  | caller : Nat → Sig
  | ofCtrl : Nat → Sig
deriving DecidableEq

/-- Request options relevant to the coordinator, as read from the
intercepted options inside request: the optional caller signal, the
optional timeout, and the optional controlKey. -/
structure ReqOptions where
  signal : Option Sig
  timeout : Option Int
  controlKey : Option String
deriving DecidableEq

/-- World state shared by requests: the instance controller map, the
process-wide controller map, the controller id counter, and the set of
aborted controllers. -/
structure World where
  instMap : SMap Nat
  globMap : SMap Nat
  nextCtrl : Nat
  aborted : List Nat
deriving DecidableEq

/-- The empty starting world: both maps empty, no controller allocated. -/
def emptyWorld : World := ⟨[], [], 0, []⟩

/-- JS truthiness of the optional controlKey string: the empty string is
falsy, so it does not count as an explicit key in the source. -/
def ckTruthy : Option String → Bool
  | some k => k ≠ ""
  | none => false

/-- The timeout is effective only when it is a number greater than zero. -/
def timeoutActive : Option Int → Bool
  | some n => n > 0
  | none => false

/-- Per-call wiring produced before the transport call: the signal handed
to fetch, the controller owned or reused by the call, whether a timeout
timer was started, and the explicit key registered for the call. -/
structure Wiring where
  signal : Option Sig
  controller : Option Nat
  timerSet : Bool
  registeredKey : Option String
deriving DecidableEq

/-- Outcome of the pre-transport phase of request: either the duplicate
key error thrown before the try block, or the wiring and the updated
world. -/
inductive StartOutcome : Type
  | failed : String → World → Bool → StartOutcome
  | started : Wiring → World → StartOutcome
deriving DecidableEq

/-- Explicit controlKey registration block of request: reject a key that
is already present in the target map, otherwise make sure a controller
exists (creating one and overwriting the signal when none was made yet)
and register it under the key. -/
def explicitRegister (isStatic : Bool) (key : String) (sig0 : Option Sig)
    (ctrl0 : Option Nat) (timerSet : Bool) (w0 : World) : StartOutcome :=
  let m := if isStatic then w0.globMap else w0.instMap
  if ahas m key then
    .failed ("controlKey \x27" ++ key ++ "\x27 is already in use.") w0 timerSet
  else
    match ctrl0 with
    | some c =>
      let w2 :=
        if isStatic then { w0 with globMap := aset w0.globMap key c }
        else { w0 with instMap := aset w0.instMap key c }
      .started ⟨sig0, some c, timerSet, some key⟩ w2
    | none =>
      let c := w0.nextCtrl
      let w1 := { w0 with nextCtrl := w0.nextCtrl + 1 }
      let w2 :=
        if isStatic then { w1 with globMap := aset w1.globMap key c }
        else { w1 with instMap := aset w1.instMap key c }
      .started ⟨some (Sig.ofCtrl c), some c, timerSet, some key⟩ w2

/-- Anonymous key block of request: reuse the controller already stored
under the shared anonymous key (overwriting the signal with its signal),
otherwise make sure a controller exists (creating one and overwriting the
signal when none was made yet) and store it under the anonymous key. -/
def anonymousRegister (isStatic : Bool) (sig0 : Option Sig) (ctrl0 : Option Nat)
    (timerSet : Bool) (w0 : World) : StartOutcome :=
  let m := if isStatic then w0.globMap else w0.instMap
  match aget m anonymousKey with
  | some c => .started ⟨some (Sig.ofCtrl c), some c, timerSet, none⟩ w0
  | none =>
    match ctrl0 with
    | some c =>
      let w2 :=
        if isStatic then { w0 with globMap := aset w0.globMap anonymousKey c }
        else { w0 with instMap := aset w0.instMap anonymousKey c }
      .started ⟨sig0, some c, timerSet, none⟩ w2
    | none =>
      let c := w0.nextCtrl
      let w1 := { w0 with nextCtrl := w0.nextCtrl + 1 }
      let w2 :=
        if isStatic then { w1 with globMap := aset w1.globMap anonymousKey c }
        else { w1 with instMap := aset w1.instMap anonymousKey c }
      .started ⟨some (Sig.ofCtrl c), some c, timerSet, none⟩ w2

/-- Pre-transport phase of HttpClient.request, following the source line
by line: decide whether a controller is needed, create one when no caller
signal exists (overwriting the signal field), start the timeout timer,
then run the explicit controlKey registration when the key is truthy, and
the shared anonymous key block otherwise. -/
def requestStart (isStatic : Bool) (o : ReqOptions) (w : World) : StartOutcome :=
  let needsController := o.signal.isNone || timeoutActive o.timeout || ckTruthy o.controlKey
  let mk := needsController && o.signal.isNone
  let sig0 := if mk then some (Sig.ofCtrl w.nextCtrl) else o.signal
  let ctrl0 : Option Nat := if mk then some w.nextCtrl else none
  let w0 := if mk then { w with nextCtrl := w.nextCtrl + 1 } else w
  let timerSet := timeoutActive o.timeout
  match o.controlKey with
  | some key =>
    if key = "" then anonymousRegister isStatic sig0 ctrl0 timerSet w0
    else explicitRegister isStatic key sig0 ctrl0 timerSet w0
  | none => anonymousRegister isStatic sig0 ctrl0 timerSet w0

/-- Signal of the wiring when the pre-transport phase succeeded. -/
def StartOutcome.signalOf : StartOutcome → Option Sig
  | .started wi _ => wi.signal
  | .failed _ _ _ => none

/-- Settlement cleanup of the explicit key, as both the try block and the
catch block perform it: pick the instance map when it holds the key, the
global map otherwise, and delete the key. Anonymous requests have no
registered key and the source removes nothing for them. -/
def settleDelete (wi : Wiring) (w : World) : World :=
  match wi.registeredKey with
  | none => w
  | some key =>
    if ahas w.instMap key then { w with instMap := adel w.instMap key }
    else { w with globMap := adel w.globMap key }

/-- Model of HttpClient.cancelRequest: look the key up in the global map
first, abort and remove it there when found; otherwise search the
instance map, abort and remove on a hit; unknown keys are a no-op. -/
def cancelRequest (key : String) (w : World) : World :=
  match aget w.globMap key with
  | some c => { w with aborted := c :: w.aborted, globMap := adel w.globMap key }
  | none =>
    match aget w.instMap key with
    | some c => { w with aborted := c :: w.aborted, instMap := adel w.instMap key }
    | none => w

/-! ## Interceptor pipeline -/

/-- JS value as seen by the error-interceptor shape checks: an object
that may carry data, status and message fields (plus an identity tag), or
a non-object value. -/
inductive JSVal : Type
  | obj : Bool → Bool → Bool → Nat → JSVal
  | prim : Nat → JSVal
deriving DecidableEq

/-- Shape check of the source for a recovered response: the value is an
object and has both a data and a status field. -/
def isRespShaped : JSVal → Bool
  | .obj d s _ _ => d && s
  | .prim _ => false

/-- Shape check of the source for an error object: the value is an object
and has a message field. -/
def isErrShaped : JSVal → Bool
  | .obj _ _ m _ => m
  | .prim _ => false

/-- Settled result of awaiting one handler call: the promise resolved
with a value, or it rejected (the handler threw). -/
inductive HOut : Type
  | ret : JSVal → HOut
  | thrown : JSVal → HOut

/-- Error-interceptor slots: each registered slot optionally carries a
fulfilled handler; slots without one are skipped by the walk. -/
abbrev ErrHandlers := List (Option (JSVal → HOut))

/-- Model of HttpClient.executeErrorInterceptors: walk the handlers in
order with a current error; a handler result shaped like a response
short-circuits as a recovery, a result shaped like an error replaces the
current error, a thrown value replaces the current error, anything else
leaves it; after the walk the final current error is thrown. -/
def executeErrorInterceptors : ErrHandlers → JSVal → Except JSVal JSVal
  | [], e => .error e
  | none :: rest, e => executeErrorInterceptors rest e
  | some f :: rest, e =>
    match f e with
    | .thrown ex => executeErrorInterceptors rest ex
    | .ret v =>
      if isRespShaped v then .ok v
      else if isErrShaped v then executeErrorInterceptors rest v
      else executeErrorInterceptors rest e

/-- Reference walk written from the specification wording: visit the
registered fulfill functions in order with the current error; a returned
value having both data and status fields short-circuits the walk as a
recovered response; a returned error-shaped value, or a thrown value,
becomes the current error; when every handler has been exhausted without
recovery, the final current error is thrown. -/
def errorWalkSpec : List (JSVal → HOut) → JSVal → Except JSVal JSVal
  | [], e => .error e
  | f :: fs, e =>
    match f e with
    | .thrown ex => errorWalkSpec fs ex
    | .ret v =>
      if isRespShaped v then .ok v
      else errorWalkSpec fs (if isErrShaped v then v else e)

/-- Paired interceptor slot handlers for promise-chain folding: each slot
optionally carries a fulfilled and a rejected handler, each of which may
resolve or reject. -/
abbrev ChainSlots (α : Type) := List (Option (α → Except α α) × Option (α → Except α α))

/-- One step of the promise chain built by the execute functions of the
source: promise.then with the fulfilled handler (identity when absent)
and the rejected handler (re-reject when absent). -/
def applySlot {α : Type} (acc : Except α α)
    (slot : Option (α → Except α α) × Option (α → Except α α)) : Except α α :=
  match acc, slot with
  | .ok c, (some f, _) => f c
  | .ok c, (none, _) => .ok c
  | .error e, (_, some r) => r e
  | .error e, (_, none) => .error e

/-- Model of executeRequestInterceptors and executeResponseInterceptors:
fold the registered slots over the initial value as a promise chain. -/
def chainFold {α : Type} (slots : ChainSlots α) (x : α) : Except α α :=
  slots.foldl applySlot (.ok x)

/-! ## Request orchestrator (HttpClient.request) -/

/-- Transport outcome: fetch resolved with a response (ok flag and an
identity tag for the parsed envelope), or fetch rejected. -/
inductive FetchOutcome : Type
  | resolved : Bool → Nat → FetchOutcome
  | rejected : JSVal → FetchOutcome
deriving DecidableEq

/-- The success envelope built from a resolved response: it carries data
and status fields and no message field. -/
def mkEnvelope (t : Nat) : JSVal := .obj true true false t

/-- The error thrown for a non-ok status: an Error (message field) with
the envelope attached under its response field; it has no top-level data
or status field. -/
def mkStatusError (t : Nat) : JSVal := .obj false false true t

/-- Rejection reaching the original caller: the duplicate key error
thrown before the try block, or the error thrown by the interceptor
pipeline out of the catch block. -/
inductive RunErr : Type
  | keyInUse : String → RunErr
  | pipeErr : JSVal → RunErr
deriving DecidableEq

/-- Observable outcome of one full request: the settled promise result,
the final world, whether fetch was invoked, and whether a started timeout
timer is still pending after settlement. -/
structure RunOutcome where
  result : Except RunErr JSVal
  world : World
  fetchInvoked : Bool
  timerPending : Bool

/-- Lift of the error-walk result to the request result. -/
def pipeResult : Except JSVal JSVal → Except RunErr JSVal
  | .ok v => .ok v
  | .error e => .error (.pipeErr e)

/-- Model of one full HttpClient.request call around a given transport
outcome: run the pre-transport wiring; a duplicate key failure propagates
before fetch. On a resolved transport the try block clears the timer and
deletes the registered key, then a non-ok status throws into the catch
(which deletes again and runs the error walk), and an ok status runs the
response chain, whose rejection also falls into the catch. On a rejected
transport the catch deletes the key and runs the error walk without
clearing the timer. A recovery by the error walk resolves the request
with the recovered value directly, without running the response chain on
it. -/
def requestRun (isStatic : Bool) (o : ReqOptions) (w : World)
    (outcome : FetchOutcome) (errHs : ErrHandlers) (respHs : ChainSlots JSVal) :
    RunOutcome :=
  match requestStart isStatic o w with
  | .failed msg w1 timerSet =>
    ⟨.error (.keyInUse msg), w1, false, timerSet⟩
  | .started wi w1 =>
    match outcome with
    | .rejected e =>
      let w2 := settleDelete wi w1
      ⟨pipeResult (executeErrorInterceptors errHs e), w2, true, wi.timerSet⟩
    | .resolved ok t =>
      let w2 := settleDelete wi w1
      if ok then
        match chainFold respHs (mkEnvelope t) with
        | .ok r => ⟨.ok r, w2, true, false⟩
        | .error e' =>
          let w3 := settleDelete wi w2
          ⟨pipeResult (executeErrorInterceptors errHs e'), w3, true, false⟩
      else
        let w3 := settleDelete wi w2
        ⟨pipeResult (executeErrorInterceptors errHs (mkStatusError t)), w3, true, false⟩

/-! ## Interceptor manager (InterceptorManagerImpl) -/

/-- State of one interceptor manager: the handler slot list and the id
counter returned by use. -/
structure IMgr (T : Type) where
  handlers : List (Option T × Option T)
  nextId : Nat

/-- A fresh interceptor manager. -/
def initMgr {T : Type} : IMgr T := ⟨[], 0⟩

/-- Model of use: push the handler pair and return the current counter
value, incrementing it. -/
def IMgr.use {T : Type} (m : IMgr T) (f r : Option T) : Nat × IMgr T :=
  (m.nextId, ⟨m.handlers ++ [(f, r)], m.nextId + 1⟩)

/-- Model of eject: when the slot at that array position exists, replace
it with an empty slot; otherwise do nothing. -/
def IMgr.eject {T : Type} (m : IMgr T) (i : Nat) : IMgr T :=
  if i < m.handlers.length then ⟨m.handlers.set i (none, none), m.nextId⟩ else m

/-- Model of clear: empty the handler list; the counter is not reset. -/
def IMgr.clear {T : Type} (m : IMgr T) : IMgr T := ⟨[], m.nextId⟩

/-- Operations applied to one interceptor manager over its lifetime. -/
inductive MOp (T : Type) : Type
  | use : Option T → Option T → MOp T
  | eject : Nat → MOp T
  | clear : MOp T

/-- Run a sequence of operations, collecting the indices returned by the
use calls in order. -/
def runOps {T : Type} : IMgr T → List (MOp T) → IMgr T × List Nat
  | m, [] => (m, [])
  | m, .use f r :: rest =>
    let p := m.use f r
    let q := runOps p.2 rest
    (q.1, p.1 :: q.2)
  | m, .eject i :: rest => runOps (m.eject i) rest
  | m, .clear :: rest => runOps m.clear rest

/-! ## Control key generation (HttpClient.generateControlKey) -/

/-- The alphanumeric alphabet of generateControlKey. -/
def controlKeyChars : List Char :=
  "ABCDEFGHIJKLMNOPQRSTUVWXYZabcdefghijklmnopqrstuvwxyz0123456789".toList

/-- Model of HttpClient.generateControlKey: when a strong random byte
source is available it fills 20 bytes and maps each one to a character of
the alphabet by remainder; when neither the Web crypto source nor the
Node crypto source exists, it throws the reported error instead of
falling back to a weak generator. -/
def generateControlKey (src : Option (Nat → Nat)) : Except String String :=
  match src with
  | none =>
    .error ("Secure random number generation is not available in this " ++
      "environment. Please provide a controlKey manually.")
  | some f =>
    let bytes := (List.range 20).map (fun idx => f idx % 256)
    .ok (String.mk (bytes.map
      (fun b => controlKeyChars.getD (b % controlKeyChars.length) 'A')))

/-- Whether the transport outcome is a rejection of the fetch promise. -/
def FetchOutcome.isRejected : FetchOutcome → Bool
  | .rejected _ => true
  | .resolved _ _ => false

/-! ## Concrete fixtures used by witness theorems -/

/-- Fixture request interceptor handler resolving with the successor. -/
def wOkFun : Nat → Except Nat Nat := fun n => Except.ok (n + 1)

/-- Fixture manager operation list consisting of one use call. -/
def oneUseOp : List (MOp (Nat → Except Nat Nat)) := [MOp.use none none]

/-- Fixture error interceptor recovering every error into a value with
data and status fields. -/
def recoverHandler : JSVal → HOut := fun _ => HOut.ret (JSVal.obj true true false 7)

/-- Fixture error handler list holding the recovering handler. -/
def recoverHandlers : ErrHandlers := [some recoverHandler]

/-- Fixture response chain that replaces every response it sees. -/
def replaceRespSlots : ChainSlots JSVal := [(some (fun _ => Except.ok (JSVal.prim 99)), none)]

/-- Fixture options with no signal, no timeout and no control key. -/
def plainOptions : ReqOptions := ⟨none, none, none⟩

/-! ## Lemmas and theorems -/

theorem ofirst_none_right {α : Type} (a : Option α) : ofirst a none = a := by
  cases a <;> rfl

theorem ofirst_some_left {α : Type} (x : α) (b : Option α) :
    ofirst (some x) b = some x := rfl

theorem ofirst_none_left {α : Type} (b : Option α) : ofirst none b = b := rfl

theorem aget_asetReplace {α : Type} (h : SMap α) (k k' : String) (v : α) :
    aget (asetReplace h k v) k' =
      if k' = k then (if ahas h k then some v else none) else aget h k' := by
  induction h with
  | nil => simp [asetReplace, aget, ahas]
  | cons p t ih =>
    obtain ⟨k₀, v₀⟩ := p
    by_cases h1 : k₀ = k
    · subst h1
      by_cases h2 : k' = k₀
      · subst h2; simp [asetReplace, aget, ahas]
      · simp [asetReplace, aget, ahas, h2, ih, Ne.symm h2]
    · by_cases h2 : k₀ = k'
      · subst h2
        have : ¬ (k₀ = k) := h1
        simp [asetReplace, aget, ahas, h1, ih, Ne.symm h1]
      · simp [asetReplace, aget, ahas, h1, h2, ih]

theorem aget_append {α : Type} (a b : SMap α) (k : String) :
    aget (a ++ b) k = ofirst (aget a k) (aget b k) := by
  induction a with
  | nil => simp [aget, ofirst]
  | cons p t ih =>
    obtain ⟨k₀, v₀⟩ := p
    by_cases h : k₀ = k
    · simp [aget, h, ofirst]
    · simp [aget, h, ih]

theorem aget_aset {α : Type} (h : SMap α) (k k' : String) (v : α) :
    aget (aset h k v) k' = if k' = k then some v else aget h k' := by
  unfold aset
  by_cases hh : ahas h k
  · rw [if_pos hh, aget_asetReplace]
    by_cases h1 : k' = k <;> simp [h1, hh]
  · rw [if_neg hh, aget_append]
    by_cases h1 : k' = k
    · subst h1
      have : aget h k' = none := by
        cases he : aget h k' with
        | none => rfl
        | some x => exact absurd (by simp [ahas, he]) hh
      simp [this, aget, ofirst]
    · simp [aget, h1, Ne.symm h1, ofirst_none_right]

theorem aget_adel {α : Type} (h : SMap α) (k k' : String) :
    aget (adel h k) k' = if k' = k then none else aget h k' := by
  induction h with
  | nil => simp [adel, aget]
  | cons p t ih =>
    obtain ⟨k₀, v₀⟩ := p
    by_cases h1 : k₀ = k
    · subst h1
      by_cases h2 : k' = k₀
      · subst h2; simp [adel, aget, ih]
      · simp [adel, aget, h2, Ne.symm h2, ih]
    · by_cases h2 : k₀ = k'
      · subst h2
        simp [adel, aget, h1, Ne.symm h1, ih]
      · simp [adel, aget, h1, h2, ih]

theorem aget_eq_none_of_not_mem {α : Type} (h : SMap α) (k : String)
    (hk : k ∉ h.map Prod.fst) : aget h k = none := by
  induction h with
  | nil => rfl
  | cons p t ih =>
    obtain ⟨k₀, v₀⟩ := p
    simp only [List.map_cons, List.mem_cons] at hk
    push_neg at hk
    simp [aget, Ne.symm hk.1, ih hk.2]

theorem aget_hmerge {α : Type} (a b : SMap α) (hb : KeysNodup b) (k : String) :
    aget (hmerge a b) k = ofirst (aget b k) (aget a k) := by
  induction b generalizing a with
  | nil => simp [hmerge, aget, ofirst]
  | cons p t ih =>
    obtain ⟨k₀, v₀⟩ := p
    have hnd : KeysNodup t := by
      simpa [KeysNodup] using (List.nodup_cons.mp hb).2
    have hmem : k₀ ∉ t.map Prod.fst := (List.nodup_cons.mp hb).1
    show aget (hmerge (aset a k₀ v₀) t) k = _
    rw [ih (aset a k₀ v₀) hnd]
    by_cases h1 : k = k₀
    · subst h1
      rw [aget_eq_none_of_not_mem t k hmem]
      simp [aget, aget_aset, ofirst]
    · simp [aget, aget_aset, h1, Ne.symm h1]

theorem aget_addGlobals (m g : Hdrs) (k : String) :
    aget (addGlobals m g) k = ofirst (aget m k) (aget g k) := by
  induction g generalizing m with
  | nil => simp [addGlobals, aget, ofirst_none_right]
  | cons p t ih =>
    obtain ⟨k₀, v₀⟩ := p
    show aget (addGlobals (if ahas m k₀ then m else aset m k₀ v₀) t) k = _
    rw [ih]
    by_cases h1 : k = k₀
    · subst h1
      cases he : aget m k with
      | some x => simp [ahas, he, aget, ofirst]
      | none => simp [ahas, he, aget, aget_aset, ofirst]
    · by_cases hm : ahas m k₀
      · simp [hm, aget, Ne.symm h1]
      · simp [hm, aget, aget_aset, h1, Ne.symm h1]

theorem mergeNonIso_aget (g i r : Hdrs) (hr : KeysNodup r) (k : String) :
    aget (mergeHeadersNonIso g i r) k =
      (if k = "Accept" ∧
          (ofirst (ofirst (aget r "Accept") (aget i "Accept")) (aget g "Accept") = none ∨
           ofirst (ofirst (aget r "Accept") (aget i "Accept")) (aget g "Accept") = some "")
       then some jsonCT
       else ofirst (ofirst (aget r k) (aget i k)) (aget g k)) := by
  unfold mergeHeadersNonIso
  have hm2 : ∀ k', aget (addGlobals (hmerge i r) g) k' =
      ofirst (ofirst (aget r k') (aget i k')) (aget g k') := by
    intro k'
    rw [aget_addGlobals, aget_hmerge i r hr]
  by_cases ht : truthyAt (addGlobals (hmerge i r) g) "Accept"
  · rw [if_pos ht]
    have hacc := hm2 "Accept"
    unfold truthyAt at ht
    cases he : aget (addGlobals (hmerge i r) g) "Accept" with
    | none => rw [he] at ht; simp at ht
    | some v =>
      rw [he] at ht hacc
      simp only [ne_eq, decide_eq_true_eq] at ht
      by_cases hk : k = "Accept"
      · subst hk
        rw [if_neg, hm2]
        rw [← hacc]
        simp [ht]
      · rw [if_neg, hm2]
        simp [hk]
  · rw [if_neg ht]
    have hacc := hm2 "Accept"
    unfold truthyAt at ht
    by_cases hk : k = "Accept"
    · subst hk
      rw [aget_aset]
      cases he : aget (addGlobals (hmerge i r) g) "Accept" with
      | none =>
        rw [he] at hacc
        simp [← hacc]
      | some v =>
        rw [he] at ht hacc
        simp only [ne_eq, decide_eq_true_eq] at ht
        push_neg at ht
        subst ht
        simp [← hacc]
    · rw [aget_aset, if_neg hk, hm2]
      rw [if_neg]
      intro hc
      exact hk hc.1

theorem includeImport_aget (i g : Hdrs) (inc : List String) (k : String) :
    aget (includeImport i g inc) k =
      (if k ∈ inc then ofirst (aget i k) (aget g k) else none) := by
  have main : ∀ (l : List String) (acc : Hdrs),
      aget (l.foldl
        (fun acc key =>
          match aget i key with
          | some v => aset acc key v
          | none =>
            match aget g key with
            | some v => aset acc key v
            | none => acc) acc) k =
      (if k ∈ l ∧ (ofirst (aget i k) (aget g k)).isSome
       then ofirst (aget i k) (aget g k) else aget acc k) := by
    intro l
    induction l with
    | nil => intro acc; simp
    | cons k₀ t ih =>
      intro acc
      rw [List.foldl_cons, ih]
      by_cases h1 : k = k₀
      · subst h1
        cases hi : aget i k with
        | some v =>
          by_cases h2 : k ∈ t ∧ (ofirst (aget i k) (aget g k)).isSome
          · simp [h2, hi, ofirst]
          · simp [h2, hi, aget_aset, ofirst]
        | none =>
          cases hg : aget g k with
          | some v =>
            by_cases h2 : k ∈ t ∧ (ofirst (aget i k) (aget g k)).isSome
            · simp [h2, hi, hg, ofirst]
            · simp [h2, hi, hg, aget_aset, ofirst]
          | none => simp [hi, hg, ofirst]
      · have hagets : ∀ acc' : Hdrs,
            aget (match aget i k₀ with
              | some v => aset acc' k₀ v
              | none =>
                match aget g k₀ with
                | some v => aset acc' k₀ v
                | none => acc') k = aget acc' k := by
          intro acc'
          cases aget i k₀ with
          | some v => simp [aget_aset, h1]
          | none =>
            cases aget g k₀ with
            | some v => simp [aget_aset, h1]
            | none => rfl
        rw [hagets]
        simp [h1]
  rw [includeImport, main inc []]
  by_cases h2 : k ∈ inc
  · cases ho : ofirst (aget i k) (aget g k) with
    | none => simp [h2, ho, aget]
    | some v => simp [h2, ho, aget]
  · simp [h2, aget]

theorem mergeIso_none_aget (g i r : Hdrs) (hr : KeysNodup r) (k : String) :
    aget (mergeHeadersIso g i none r) k = aget r k := by
  unfold mergeHeadersIso
  rw [aget_hmerge _ r hr]
  simp [aget, ofirst_none_right]

theorem mergeIso_some_aget (g i r : Hdrs) (hr : KeysNodup r)
    (inc : List String) (k : String) :
    aget (mergeHeadersIso g i (some inc) r) k =
      ofirst (aget r k) (if k ∈ inc then ofirst (aget i k) (aget g k) else none) := by
  unfold mergeHeadersIso
  rw [aget_hmerge _ r hr, includeImport_aget]

theorem controlKeyChars_length : controlKeyChars.length = 62 := by decide

theorem charsGetD_mem (n : Nat) :
    controlKeyChars.getD (n % controlKeyChars.length) 'A' ∈ controlKeyChars := by
  have hlt : n % controlKeyChars.length < controlKeyChars.length :=
    Nat.mod_lt _ (by rw [controlKeyChars_length]; omega)
  rw [List.getD_eq_getElem?_getD, List.getElem?_eq_getElem hlt]
  exact List.getElem_mem hlt

/-- C9: every value produced by the control key generation with an
available strong random source is a 20-character string whose characters
are all drawn from the alphanumeric alphabet, and when no strong random
source is available the operation reports an error instead of producing
a key. -/
theorem C9_generateControlKey :
    (∀ f : Nat → Nat, ∃ s, generateControlKey (some f) = .ok s ∧
      s.length = 20 ∧ ∀ c ∈ s.toList, c ∈ controlKeyChars) ∧
    (∃ msg, generateControlKey none = .error msg) := by
  constructor
  · intro f
    refine ⟨_, rfl, ?_, ?_⟩
    · show (String.mk _).length = 20
      simp [String.length]
    · intro c hc
      have hc' : c ∈ (((List.range 20).map (fun idx => f idx % 256)).map
          (fun b => controlKeyChars.getD (b % controlKeyChars.length) 'A')) := hc
      rw [List.mem_map] at hc'
      obtain ⟨b, _, rfl⟩ := hc'
      exact charsGetD_mem b
  · exact ⟨_, rfl⟩

theorem IMgr.eject_nextId {T : Type} (m : IMgr T) (i : Nat) :
    (m.eject i).nextId = m.nextId := by
  unfold IMgr.eject; split <;> rfl

theorem runOps_bounds {T : Type} (ops : List (MOp T)) : ∀ m : IMgr T,
    m.nextId ≤ (runOps m ops).1.nextId ∧
    ∀ j ∈ (runOps m ops).2, m.nextId ≤ j ∧ j < (runOps m ops).1.nextId := by
  induction ops with
  | nil => intro m; simp [runOps]
  | cons op rest ih =>
    intro m
    cases op with
    | use f r =>
      have h := ih ⟨m.handlers ++ [(f, r)], m.nextId + 1⟩
      refine ⟨?_, ?_⟩
      · show m.nextId ≤ (runOps ⟨m.handlers ++ [(f, r)], m.nextId + 1⟩ rest).1.nextId
        exact Nat.le_trans (Nat.le_succ _) h.1
      · intro j hj
        rcases List.mem_cons.mp hj with hj | hj
        · subst hj
          exact ⟨Nat.le_refl _, Nat.lt_of_lt_of_le (Nat.lt_succ_self _) h.1⟩
        · have := h.2 j hj
          exact ⟨Nat.le_trans (Nat.le_succ _) this.1, this.2⟩
    | eject i =>
      have h := ih (m.eject i)
      rw [IMgr.eject_nextId] at h
      exact h
    | clear =>
      have h := ih m.clear
      exact h

/-- C10: after clear follows earlier registrations, the next use call
returns an index strictly greater than every index returned before, and
since the handler list was emptied, eject at that index is a no-op while
only the one new handler is registered, so the new handler still runs
when the chain executes. -/
theorem C10_clear_counter {α : Type} (ops : List (MOp (α → Except α α)))
    (f : α → Except α α) (r : Option (α → Except α α)) (x : α)
    (hk : (runOps (initMgr : IMgr (α → Except α α)) ops).2 ≠ []) :
    (∀ j ∈ (runOps (initMgr : IMgr (α → Except α α)) ops).2,
      j < ((runOps (initMgr : IMgr (α → Except α α)) ops).1.clear.use (some f) r).1) ∧
    (((runOps (initMgr : IMgr (α → Except α α)) ops).1.clear.use (some f) r).2.eject
        ((runOps (initMgr : IMgr (α → Except α α)) ops).1.clear.use (some f) r).1 =
      ((runOps (initMgr : IMgr (α → Except α α)) ops).1.clear.use (some f) r).2) ∧
    ((runOps (initMgr : IMgr (α → Except α α)) ops).1.clear.use (some f) r).2.handlers =
      [(some f, r)] ∧
    chainFold
      (((runOps (initMgr : IMgr (α → Except α α)) ops).1.clear.use (some f) r).2.eject
        ((runOps (initMgr : IMgr (α → Except α α)) ops).1.clear.use (some f) r).1).handlers
      x = f x := by
  have hb := runOps_bounds ops (initMgr : IMgr (α → Except α α))
  have hlt : ∀ j ∈ (runOps (initMgr : IMgr (α → Except α α)) ops).2,
      j < (runOps (initMgr : IMgr (α → Except α α)) ops).1.nextId := by
    intro j hj; exact (hb.2 j hj).2
  have hpos : 1 ≤ (runOps (initMgr : IMgr (α → Except α α)) ops).1.nextId := by
    obtain ⟨j, hj⟩ := List.exists_mem_of_ne_nil _ hk
    have := hlt j hj
    omega
  have hid : ((runOps (initMgr : IMgr (α → Except α α)) ops).1.clear.use (some f) r).1 =
      (runOps (initMgr : IMgr (α → Except α α)) ops).1.nextId := rfl
  have hmgr : ((runOps (initMgr : IMgr (α → Except α α)) ops).1.clear.use (some f) r).2 =
      ⟨[(some f, r)], (runOps (initMgr : IMgr (α → Except α α)) ops).1.nextId + 1⟩ := rfl
  have heject : ((runOps (initMgr : IMgr (α → Except α α)) ops).1.clear.use (some f) r).2.eject
      ((runOps (initMgr : IMgr (α → Except α α)) ops).1.clear.use (some f) r).1 =
      ((runOps (initMgr : IMgr (α → Except α α)) ops).1.clear.use (some f) r).2 := by
    rw [hid, hmgr]
    unfold IMgr.eject
    rw [if_neg]
    simp only [List.length_cons, List.length_nil]
    omega
  refine ⟨?_, heject, by rw [hmgr], ?_⟩
  · intro j hj
    rw [hid]
    exact hlt j hj
  · rw [heject, hmgr]
    rfl

/-- Witness for C10 at a concrete single-use history. -/
theorem C10_witness :
    (runOps (initMgr : IMgr (Nat → Except Nat Nat)) oneUseOp).2 ≠ [] ∧
    chainFold
      (((runOps (initMgr : IMgr (Nat → Except Nat Nat)) oneUseOp).1.clear.use
          (some wOkFun) none).2.eject
        ((runOps (initMgr : IMgr (Nat → Except Nat Nat)) oneUseOp).1.clear.use
          (some wOkFun) none).1).handlers 0 = wOkFun 0 :=
  ⟨by simp [oneUseOp, runOps, IMgr.use, initMgr],
   (C10_clear_counter oneUseOp wOkFun none 0
     (by simp [oneUseOp, runOps, IMgr.use, initMgr])).2.2.2⟩

/-- C5 counterexample: with a per-call Accept header whose value is the
empty string, the resolved mapping does not carry the per-call value (the
falsy-value check replaces it with the default), contradicting the claim
that the R value always wins. -/
theorem C5_counterexample :
    aget (mergeHeadersNonIso [] [] [("Accept", "")]) "Accept" = some jsonCT ∧
    (some jsonCT : Option String) ≠ some "" := by
  constructor
  · decide
  · decide

/-- C5 amended: for every key the resolved non-isolated headers carry the
per-call value when present, else the instance value, else the global
value, and every key present in one of the three sets appears; the only
exception is the Accept key, which is set to application/json whenever
the merged Accept value is missing or is the empty string (the source
uses a truthiness check, not a presence check, for the default). -/
theorem C5_precedence (g i r : Hdrs) (hr : KeysNodup r) (k : String) :
    (aget (mergeHeadersNonIso g i r) k =
      (if k = "Accept" ∧
          (ofirst (ofirst (aget r "Accept") (aget i "Accept")) (aget g "Accept") = none ∨
           ofirst (ofirst (aget r "Accept") (aget i "Accept")) (aget g "Accept") = some "")
       then some jsonCT
       else ofirst (ofirst (aget r k) (aget i k)) (aget g k))) ∧
    ((ofirst (ofirst (aget r k) (aget i k)) (aget g k)).isSome →
      (aget (mergeHeadersNonIso g i r) k).isSome) := by
  have h := mergeNonIso_aget g i r hr k
  refine ⟨h, ?_⟩
  intro hs
  rw [h]
  split
  · simp
  · exact hs

/-- Witness for C5 at the example scenario of the specification. -/
theorem C5_witness :
    KeysNodup [("X-A", "9")] ∧
    aget (mergeHeadersNonIso [("X-A", "2"), ("X-B", "3")] [("X-A", "1")]
      [("X-A", "9")]) "X-A" = some "9" :=
  ⟨by decide,
   by
    rw [(C5_precedence [("X-A", "2"), ("X-B", "3")] [("X-A", "1")] [("X-A", "9")]
      (by decide) "X-A").1]
    decide⟩

/-- C6: isolated calls with no includeHeaders list resolve to exactly the
per-call headers (no instance or global leakage and no default Accept),
and with includeHeaders equal to a two-name list each listed name gets
pulled from instance headers first, else global headers, every unlisted
instance or global key is absent, and per-call headers overlay with
highest precedence. -/
theorem C6_isolated (g i r : Hdrs) (hr : KeysNodup r) :
    (∀ k, aget (mergeHeadersIso g i none r) k = aget r k) ∧
    (∀ k1 k2 k, aget (mergeHeadersIso g i (some [k1, k2]) r) k =
      ofirst (aget r k)
        (if k = k1 ∨ k = k2 then ofirst (aget i k) (aget g k) else none)) := by
  constructor
  · intro k; exact mergeIso_none_aget g i r hr k
  · intro k1 k2 k
    rw [mergeIso_some_aget g i r hr [k1, k2] k]
    by_cases hm : k = k1 ∨ k = k2
    · have hm' : k ∈ [k1, k2] := by
        rcases hm with h | h <;> simp [h]
      rw [if_pos hm', if_pos hm]
    · have hm' : k ∉ [k1, k2] := by
        simp only [List.mem_cons, List.not_mem_nil, or_false]
        exact hm
      rw [if_neg hm', if_neg hm]

/-- Witness for C6 at concrete header sets. -/
theorem C6_witness :
    KeysNodup [("X-D", "9")] ∧
    aget (mergeHeadersIso [("X-B", "3")] [("X-A", "1")] none [("X-D", "9")]) "X-B" = none ∧
    aget (mergeHeadersIso [("X-B", "3")] [("X-A", "1")] (some ["X-A", "X-B"])
      [("X-D", "9")]) "X-A" = some "1" :=
  ⟨by decide,
   by
    rw [(C6_isolated [("X-B", "3")] [("X-A", "1")] [("X-D", "9")] (by decide)).1 "X-B"]
    decide,
   by
    rw [(C6_isolated [("X-B", "3")] [("X-A", "1")] [("X-D", "9")] (by decide)).2
      "X-A" "X-B" "X-A"]
    decide⟩

/-- C3 counterexample: a string body posted with an explicit Content-Type
is not passed through as given; the transport receives the JSON-serialized
text instead. -/
theorem C3_counterexample :
    (requestWithBody [] [] [("Content-Type", "text/plain")] "POST"
      (some (JsonV.jstr "abc"))).body ≠ some "abc" := by
  decide

/-- C3 amended: for every body-bearing call with a body value provided,
the body handed to the transport is always the JSON serialization of the
given value, whether or not a Content-Type was set; Content-Type is set
to application/json exactly when the resolved headers carry no non-empty
Content-Type value, and a caller-set non-empty Content-Type is kept. -/
theorem C3_serialization (g i r : Hdrs) (hr : KeysNodup r) (method : String) (b : JsonV) :
    (requestWithBody g i r method (some b)).body = some (jsonStringify b) ∧
    (requestWithBody g i r method (some b)).method = method ∧
    (aget (requestWithBody g i r method (some b)).headers "Content-Type" =
      (if ofirst (ofirst (aget r "Content-Type") (aget i "Content-Type"))
            (aget g "Content-Type") = none ∨
          ofirst (ofirst (aget r "Content-Type") (aget i "Content-Type"))
            (aget g "Content-Type") = some ""
       then some jsonCT
       else ofirst (ofirst (aget r "Content-Type") (aget i "Content-Type"))
            (aget g "Content-Type"))) := by
  have hct : aget (mergeHeadersNonIso g i r) "Content-Type" =
      ofirst (ofirst (aget r "Content-Type") (aget i "Content-Type"))
        (aget g "Content-Type") := by
    rw [mergeNonIso_aget g i r hr "Content-Type"]
    rw [if_neg]
    intro hc
    exact absurd hc.1 (by decide)
  refine ⟨rfl, rfl, ?_⟩
  show aget (if truthyAt (mergeHeadersNonIso g i r) "Content-Type"
      then mergeHeadersNonIso g i r
      else aset (mergeHeadersNonIso g i r) "Content-Type" jsonCT) "Content-Type" = _
  by_cases ht : truthyAt (mergeHeadersNonIso g i r) "Content-Type"
  · rw [if_pos ht, hct]
    unfold truthyAt at ht
    rw [hct] at ht
    cases hc : ofirst (ofirst (aget r "Content-Type") (aget i "Content-Type"))
        (aget g "Content-Type") with
    | none => rw [hc] at ht; simp at ht
    | some v =>
      rw [hc] at ht
      simp only [ne_eq, decide_eq_true_eq] at ht
      rw [if_neg]
      push_neg
      exact ⟨by simp, by simpa using ht⟩
  · rw [if_neg ht, aget_aset, if_pos rfl]
    unfold truthyAt at ht
    rw [hct] at ht
    cases hc : ofirst (ofirst (aget r "Content-Type") (aget i "Content-Type"))
        (aget g "Content-Type") with
    | none => rw [if_pos (Or.inl rfl)]
    | some v =>
      rw [hc] at ht
      simp only [ne_eq, decide_eq_true_eq, not_not] at ht
      subst ht
      rw [if_pos (Or.inr rfl)]

/-- Witness for C3 at the example scenario of the specification: a JSON
body with one numeric field posted with no explicit Content-Type. -/
theorem C3_witness :
    KeysNodup ([] : Hdrs) ∧
    (requestWithBody [] [] [] "POST" (some (JsonV.jobj [("n", JsonV.jnum 1)]))).body =
      some "\x7b\"n\":1\x7d" ∧
    aget (requestWithBody [] [] [] "POST"
      (some (JsonV.jobj [("n", JsonV.jnum 1)]))).headers "Content-Type" = some jsonCT :=
  ⟨by decide,
   by
    rw [(C3_serialization [] [] [] (by decide) "POST" (JsonV.jobj [("n", JsonV.jnum 1)])).1]
    decide,
   by
    rw [(C3_serialization [] [] [] (by decide) "POST" (JsonV.jobj [("n", JsonV.jnum 1)])).2.2]
    decide⟩

theorem mkLink (cond : Bool) (w : World) (osig : Option Sig) :
    ∀ c, (if cond then some w.nextCtrl else (none : Option Nat)) = some c →
      (if cond then some (Sig.ofCtrl w.nextCtrl) else osig) = some (Sig.ofCtrl c) := by
  intro c hc
  cases cond
  · simp at hc
  · simp only [if_pos, Option.some.injEq] at hc ⊢
    rw [hc]

theorem mkWorld_globMap (cond : Bool) (w : World) :
    (if cond then { w with nextCtrl := w.nextCtrl + 1 } else w).globMap = w.globMap := by
  cases cond <;> rfl

theorem mkWorld_instMap (cond : Bool) (w : World) :
    (if cond then { w with nextCtrl := w.nextCtrl + 1 } else w).instMap = w.instMap := by
  cases cond <;> rfl

theorem mkWorld_aborted (cond : Bool) (w : World) :
    (if cond then { w with nextCtrl := w.nextCtrl + 1 } else w).aborted = w.aborted := by
  cases cond <;> rfl

theorem anonymousRegister_reuse (b : Bool) (sig0 : Option Sig) (ctrl0 : Option Nat)
    (ts : Bool) (w0 : World) (c : Nat)
    (hc : aget (if b then w0.globMap else w0.instMap) anonymousKey = some c) :
    anonymousRegister b sig0 ctrl0 ts w0 =
      .started ⟨some (Sig.ofCtrl c), some c, ts, none⟩ w0 := by
  simp [anonymousRegister, hc]

theorem anonymousRegister_spec (b : Bool) (sig0 : Option Sig) (ctrl0 : Option Nat)
    (ts : Bool) (w0 w : World)
    (hg : w0.globMap = w.globMap) (hi : w0.instMap = w.instMap)
    (hab : w0.aborted = w.aborted)
    (hs : ∀ c, ctrl0 = some c → sig0 = some (Sig.ofCtrl c)) :
    ∃ c w1, anonymousRegister b sig0 ctrl0 ts w0 =
        .started ⟨some (Sig.ofCtrl c), some c, ts, none⟩ w1 ∧
      aget (if b then w1.globMap else w1.instMap) anonymousKey = some c ∧
      (if b then w1.instMap = w.instMap else w1.globMap = w.globMap) ∧
      w1.aborted = w.aborted := by
  cases b with
  | false =>
    cases hanon : aget w0.instMap anonymousKey with
    | some c =>
      refine ⟨c, w0, anonymousRegister_reuse false sig0 ctrl0 ts w0 c (by simpa using hanon),
        ?_, ?_, hab⟩
      · simpa using hanon
      · simpa using hg
    | none =>
      cases h2 : ctrl0 with
      | some c =>
        refine ⟨c, { w0 with instMap := aset w0.instMap anonymousKey c }, ?_, ?_, ?_, hab⟩
        · simp [anonymousRegister, hanon, h2, hs c h2]
        · simp [aget_aset]
        · simpa using hg
      | none =>
        refine ⟨w0.nextCtrl, ⟨aset w0.instMap anonymousKey w0.nextCtrl, w0.globMap, w0.nextCtrl + 1, w0.aborted⟩, ?_, ?_, ?_, hab⟩
        · simp [anonymousRegister, hanon, h2]
        · simp [aget_aset]
        · simpa using hg
  | true =>
    cases hanon : aget w0.globMap anonymousKey with
    | some c =>
      refine ⟨c, w0, anonymousRegister_reuse true sig0 ctrl0 ts w0 c (by simpa using hanon),
        ?_, ?_, hab⟩
      · simpa using hanon
      · simpa using hi
    | none =>
      cases h2 : ctrl0 with
      | some c =>
        refine ⟨c, { w0 with globMap := aset w0.globMap anonymousKey c }, ?_, ?_, ?_, hab⟩
        · simp [anonymousRegister, hanon, h2, hs c h2]
        · simp [aget_aset]
        · simpa using hi
      | none =>
        refine ⟨w0.nextCtrl, ⟨w0.instMap, aset w0.globMap anonymousKey w0.nextCtrl, w0.nextCtrl + 1, w0.aborted⟩, ?_, ?_, ?_, hab⟩
        · simp [anonymousRegister, hanon, h2]
        · simp [aget_aset]
        · simpa using hi

theorem explicitRegister_spec (b : Bool) (key : String) (sig0 : Option Sig)
    (ctrl0 : Option Nat) (ts : Bool) (w0 w : World)
    (hg : w0.globMap = w.globMap) (hi : w0.instMap = w.instMap)
    (hab : w0.aborted = w.aborted)
    (hfree : ahas (if b then w.globMap else w.instMap) key = false)
    (hs : ∀ c, ctrl0 = some c → sig0 = some (Sig.ofCtrl c)) :
    ∃ c w1, explicitRegister b key sig0 ctrl0 ts w0 =
        .started ⟨some (Sig.ofCtrl c), some c, ts, some key⟩ w1 ∧
      (if b then w1.globMap = aset w.globMap key c ∧ w1.instMap = w.instMap
       else w1.instMap = aset w.instMap key c ∧ w1.globMap = w.globMap) ∧
      w1.aborted = w.aborted := by
  cases b with
  | false =>
    have hfree' : ahas w0.instMap key = false := by rw [hi]; simpa using hfree
    cases h2 : ctrl0 with
    | some c =>
      refine ⟨c, { w0 with instMap := aset w0.instMap key c }, ?_, ?_, hab⟩
      · simp [explicitRegister, hfree', h2, hs c h2]
      · simp [hg, hi]
    | none =>
      refine ⟨w0.nextCtrl, ⟨aset w0.instMap key w0.nextCtrl, w0.globMap, w0.nextCtrl + 1, w0.aborted⟩, ?_, ?_, hab⟩
      · simp [explicitRegister, hfree', h2]
      · simp [hg, hi]
  | true =>
    have hfree' : ahas w0.globMap key = false := by rw [hg]; simpa using hfree
    cases h2 : ctrl0 with
    | some c =>
      refine ⟨c, { w0 with globMap := aset w0.globMap key c }, ?_, ?_, hab⟩
      · simp [explicitRegister, hfree', h2, hs c h2]
      · simp [hg, hi]
    | none =>
      refine ⟨w0.nextCtrl, ⟨w0.instMap, aset w0.globMap key w0.nextCtrl, w0.nextCtrl + 1, w0.aborted⟩, ?_, ?_, hab⟩
      · simp [explicitRegister, hfree', h2]
      · simp [hg, hi]

theorem explicitRegister_dup (b : Bool) (key : String) (sig0 : Option Sig)
    (ctrl0 : Option Nat) (ts : Bool) (w0 : World)
    (hp : ahas (if b then w0.globMap else w0.instMap) key = true) :
    explicitRegister b key sig0 ctrl0 ts w0 =
      .failed ("controlKey \x27" ++ key ++ "\x27 is already in use.") w0 ts := by
  simp [explicitRegister, hp]

theorem requestStart_dup (b : Bool) (o : ReqOptions) (w : World) (k : String)
    (hk : o.controlKey = some k) (hk0 : k ≠ "")
    (hp : ahas (if b then w.globMap else w.instMap) k = true) :
    ∃ w1, requestStart b o w =
        .failed ("controlKey \x27" ++ k ++ "\x27 is already in use.") w1
          (timeoutActive o.timeout) ∧
      w1.instMap = w.instMap ∧ w1.globMap = w.globMap ∧ w1.aborted = w.aborted := by
  simp only [requestStart, hk]
  rw [if_neg hk0]
  refine ⟨_, explicitRegister_dup b k _ _ _ _ ?_, mkWorld_instMap _ w, mkWorld_globMap _ w,
    mkWorld_aborted _ w⟩
  cases b with
  | false => rw [mkWorld_instMap]; simpa using hp
  | true => rw [mkWorld_globMap]; simpa using hp

theorem anonymousRegister_signal (b : Bool) (sig0 : Option Sig) (ctrl0 : Option Nat)
    (ts : Bool) (w0 : World)
    (hs : ∀ c, ctrl0 = some c → sig0 = some (Sig.ofCtrl c)) :
    ∃ c, (anonymousRegister b sig0 ctrl0 ts w0).signalOf = some (Sig.ofCtrl c) := by
  cases h1 : aget (if b then w0.globMap else w0.instMap) anonymousKey with
  | some c => exact ⟨c, by simp [anonymousRegister, StartOutcome.signalOf, h1]⟩
  | none =>
    cases h2 : ctrl0 with
    | some c =>
      exact ⟨c, by simp [anonymousRegister, StartOutcome.signalOf, h1, h2, hs c h2]⟩
    | none => exact ⟨w0.nextCtrl, by simp [anonymousRegister, StartOutcome.signalOf, h1, h2]⟩

theorem explicitRegister_signal (b : Bool) (key : String) (sig0 : Option Sig)
    (ctrl0 : Option Nat) (ts : Bool) (w0 : World)
    (hs : ∀ c, ctrl0 = some c → sig0 = some (Sig.ofCtrl c)) :
    (explicitRegister b key sig0 ctrl0 ts w0).signalOf = none ∨
    ∃ c, (explicitRegister b key sig0 ctrl0 ts w0).signalOf = some (Sig.ofCtrl c) := by
  by_cases h1 : ahas (if b then w0.globMap else w0.instMap) key
  · left; simp [explicitRegister, StartOutcome.signalOf, h1]
  · right
    cases h2 : ctrl0 with
    | some c =>
      exact ⟨c, by simp [explicitRegister, StartOutcome.signalOf, h1, h2, hs c h2]⟩
    | none => exact ⟨w0.nextCtrl, by simp [explicitRegister, StartOutcome.signalOf, h1, h2]⟩

theorem requestStart_signalOf (b : Bool) (o : ReqOptions) (w : World) :
    (requestStart b o w).signalOf = none ∨
    ∃ c, (requestStart b o w).signalOf = some (Sig.ofCtrl c) := by
  obtain ⟨osig, oto, ock⟩ := o
  cases ock with
  | none =>
    simp only [requestStart]
    exact Or.inr (anonymousRegister_signal b _ _ _ _ (mkLink _ w osig))
  | some key =>
    by_cases hkey : key = ""
    · subst hkey
      simp only [requestStart]
      rw [if_pos trivial]
      exact Or.inr (anonymousRegister_signal b _ _ _ _ (mkLink _ w osig))
    · simp only [requestStart]
      rw [if_neg hkey]
      exact explicitRegister_signal b key _ _ _ _ (mkLink _ w osig)

/-- C2: the resolved options never carry the caller-supplied abort
signal; the wiring (controlKey registration or anonymous key block)
always replaces it with the signal of a coordinator-made controller, as
the concrete evaluation shows for a caller-supplied signal with no
controlKey and no timeout. -/
theorem C2_signal_override :
    (∀ (b : Bool) (o : ReqOptions) (w : World) (n : Nat),
      (requestStart b o w).signalOf ≠ some (Sig.caller n)) ∧
    (requestStart false ⟨some (Sig.caller 5), none, none⟩ emptyWorld).signalOf =
      some (Sig.ofCtrl 0) := by
  constructor
  · intro b o w n
    rcases requestStart_signalOf b o w with h | ⟨c, h⟩ <;> rw [h] <;> simp
  · decide

/-- C4: a call carrying an explicit controlKey that is already present in
its target controller map fails with the descriptive key-in-use error,
the transport is never invoked, both controller maps and the set of
aborted controllers are unchanged, and the pending entry under the key
still holds its controller. -/
theorem C4_duplicate_key (b : Bool) (o : ReqOptions) (w : World) (k : String) (c : Nat)
    (outcome : FetchOutcome) (errHs : ErrHandlers) (respHs : ChainSlots JSVal)
    (hk : o.controlKey = some k) (hk0 : k ≠ "")
    (hp : aget (if b then w.globMap else w.instMap) k = some c) :
    (requestRun b o w outcome errHs respHs).result =
      .error (.keyInUse ("controlKey \x27" ++ k ++ "\x27 is already in use.")) ∧
    (requestRun b o w outcome errHs respHs).fetchInvoked = false ∧
    (requestRun b o w outcome errHs respHs).world.instMap = w.instMap ∧
    (requestRun b o w outcome errHs respHs).world.globMap = w.globMap ∧
    (requestRun b o w outcome errHs respHs).world.aborted = w.aborted ∧
    aget (if b then (requestRun b o w outcome errHs respHs).world.globMap
      else (requestRun b o w outcome errHs respHs).world.instMap) k = some c := by
  obtain ⟨w1, h1, h2, h3, h4⟩ := requestStart_dup b o w k hk hk0 (by simp [ahas, hp])
  have hrun : requestRun b o w outcome errHs respHs =
      ⟨.error (.keyInUse ("controlKey \x27" ++ k ++ "\x27 is already in use.")), w1, false,
        timeoutActive o.timeout⟩ := by
    unfold requestRun
    rw [h1]
  rw [hrun]
  refine ⟨rfl, rfl, h2, h3, h4, ?_⟩
  cases b with
  | false => simpa [h2] using hp
  | true => simpa [h3] using hp

/-- Witness for C4 at a concrete duplicate key. -/
theorem C4_witness :
    (⟨none, none, some "k1"⟩ : ReqOptions).controlKey = some "k1" ∧
    ("k1" : String) ≠ "" ∧
    aget (if false then (⟨[("k1", 0)], [], 1, []⟩ : World).globMap
      else (⟨[("k1", 0)], [], 1, []⟩ : World).instMap) "k1" = some 0 ∧
    (requestRun false ⟨none, none, some "k1"⟩ ⟨[("k1", 0)], [], 1, []⟩
        (.rejected (JSVal.prim 0)) [] []).result =
      .error (.keyInUse ("controlKey \x27" ++ "k1" ++ "\x27 is already in use.")) ∧
    (requestRun false ⟨none, none, some "k1"⟩ ⟨[("k1", 0)], [], 1, []⟩
        (.rejected (JSVal.prim 0)) [] []).fetchInvoked = false :=
  ⟨rfl, by decide, by decide,
   (C4_duplicate_key false ⟨none, none, some "k1"⟩ ⟨[("k1", 0)], [], 1, []⟩ "k1" 0
     (.rejected (JSVal.prim 0)) [] [] rfl (by decide) (by decide)).1,
   (C4_duplicate_key false ⟨none, none, some "k1"⟩ ⟨[("k1", 0)], [], 1, []⟩ "k1" 0
     (.rejected (JSVal.prim 0)) [] [] rfl (by decide) (by decide)).2.1⟩

theorem requestStart_anonymous (b : Bool) (o : ReqOptions) (w : World)
    (h : o.controlKey = none) :
    ∃ c w1, requestStart b o w =
        .started ⟨some (Sig.ofCtrl c), some c, timeoutActive o.timeout, none⟩ w1 ∧
      aget (if b then w1.globMap else w1.instMap) anonymousKey = some c ∧
      (if b then w1.instMap = w.instMap else w1.globMap = w.globMap) ∧
      w1.aborted = w.aborted := by
  simp only [requestStart, h]
  exact anonymousRegister_spec b _ _ _ _ w (mkWorld_globMap _ w) (mkWorld_instMap _ w)
    (mkWorld_aborted _ w) (mkLink _ w o.signal)

theorem requestStart_anon_reuse (b : Bool) (o : ReqOptions) (w : World) (c : Nat)
    (h : o.controlKey = none)
    (hc : aget (if b then w.globMap else w.instMap) anonymousKey = some c) :
    ∃ w1, requestStart b o w =
        .started ⟨some (Sig.ofCtrl c), some c, timeoutActive o.timeout, none⟩ w1 ∧
      w1.instMap = w.instMap ∧ w1.globMap = w.globMap ∧ w1.aborted = w.aborted := by
  simp only [requestStart, h]
  refine ⟨_, anonymousRegister_reuse b _ _ _ _ c ?_, mkWorld_instMap _ w, mkWorld_globMap _ w,
    mkWorld_aborted _ w⟩
  cases b with
  | false => rw [mkWorld_instMap]; simpa using hc
  | true => rw [mkWorld_globMap]; simpa using hc

theorem requestStart_explicit (b : Bool) (o : ReqOptions) (w : World) (k : String)
    (hk : o.controlKey = some k) (hk0 : k ≠ "")
    (hfree : ahas (if b then w.globMap else w.instMap) k = false) :
    ∃ c w1, requestStart b o w =
        .started ⟨some (Sig.ofCtrl c), some c, timeoutActive o.timeout, some k⟩ w1 ∧
      (if b then w1.globMap = aset w.globMap k c ∧ w1.instMap = w.instMap
       else w1.instMap = aset w.instMap k c ∧ w1.globMap = w.globMap) ∧
      w1.aborted = w.aborted := by
  simp only [requestStart, hk]
  rw [if_neg hk0]
  exact explicitRegister_spec b k _ _ _ _ w (mkWorld_globMap _ w) (mkWorld_instMap _ w)
    (mkWorld_aborted _ w) hfree (mkLink _ w o.signal)

theorem settleDelete_anon (wi : Wiring) (w : World) (h : wi.registeredKey = none) :
    settleDelete wi w = w := by
  simp [settleDelete, h]

theorem settleDelete_inst (wi : Wiring) (k : String) (w : World)
    (hk : wi.registeredKey = some k) (h : ahas w.instMap k = true) :
    settleDelete wi w = { w with instMap := adel w.instMap k } := by
  simp [settleDelete, hk, h]

theorem settleDelete_glob (wi : Wiring) (k : String) (w : World)
    (hk : wi.registeredKey = some k) (h : ahas w.instMap k = false) :
    settleDelete wi w = { w with globMap := adel w.globMap k } := by
  simp [settleDelete, hk, h]

theorem settleDelete_instMap_none (wi : Wiring) (w : World) (k : String)
    (h : aget w.instMap k = none) : aget (settleDelete wi w).instMap k = none := by
  cases hrk : wi.registeredKey with
  | none => simp [settleDelete, hrk, h]
  | some key2 =>
    by_cases h2 : ahas w.instMap key2
    · simp [settleDelete, hrk, h2, aget_adel, h]
    · simp [settleDelete, hrk, h2, h]

theorem settleDelete_globMap_none (wi : Wiring) (w : World) (k : String)
    (h : aget w.globMap k = none) : aget (settleDelete wi w).globMap k = none := by
  cases hrk : wi.registeredKey with
  | none => simp [settleDelete, hrk, h]
  | some key2 =>
    by_cases h2 : ahas w.instMap key2
    · simp [settleDelete, hrk, h2, h]
    · simp [settleDelete, hrk, h2, aget_adel, h]

theorem requestRun_rejected (b : Bool) (o : ReqOptions) (w : World) (e : JSVal)
    (errHs : ErrHandlers) (respHs : ChainSlots JSVal) (wi : Wiring) (w1 : World)
    (h : requestStart b o w = .started wi w1) :
    requestRun b o w (.rejected e) errHs respHs =
      ⟨pipeResult (executeErrorInterceptors errHs e), settleDelete wi w1, true,
        wi.timerSet⟩ := by
  unfold requestRun
  rw [h]

theorem requestRun_resolved_ok (b : Bool) (o : ReqOptions) (w : World) (t : Nat)
    (errHs : ErrHandlers) (respHs : ChainSlots JSVal) (wi : Wiring) (w1 : World) (r : JSVal)
    (h : requestStart b o w = .started wi w1)
    (hr : chainFold respHs (mkEnvelope t) = .ok r) :
    requestRun b o w (.resolved true t) errHs respHs =
      ⟨.ok r, settleDelete wi w1, true, false⟩ := by
  unfold requestRun
  rw [h]
  simp [hr]

theorem requestRun_resolved_ok_err (b : Bool) (o : ReqOptions) (w : World) (t : Nat)
    (errHs : ErrHandlers) (respHs : ChainSlots JSVal) (wi : Wiring) (w1 : World) (e2 : JSVal)
    (h : requestStart b o w = .started wi w1)
    (hr : chainFold respHs (mkEnvelope t) = .error e2) :
    requestRun b o w (.resolved true t) errHs respHs =
      ⟨pipeResult (executeErrorInterceptors errHs e2), settleDelete wi (settleDelete wi w1),
        true, false⟩ := by
  unfold requestRun
  rw [h]
  simp [hr]

theorem requestRun_resolved_bad (b : Bool) (o : ReqOptions) (w : World) (t : Nat)
    (errHs : ErrHandlers) (respHs : ChainSlots JSVal) (wi : Wiring) (w1 : World)
    (h : requestStart b o w = .started wi w1) :
    requestRun b o w (.resolved false t) errHs respHs =
      ⟨pipeResult (executeErrorInterceptors errHs (mkStatusError t)),
        settleDelete wi (settleDelete wi w1), true, false⟩ := by
  unfold requestRun
  rw [h]
  simp

/-- C1 counterexample: an anonymous request with a pending timeout whose
transport rejects settles with its anonymous map entry still present and
its timeout timer still pending, contradicting the claim that settlement
removes every key entry and clears the timer. -/
theorem C1_counterexample :
    (aget (requestRun false ⟨none, some 50, none⟩ emptyWorld
      (.rejected (JSVal.prim 0)) [] []).world.instMap anonymousKey).isSome = true ∧
    (requestRun false ⟨none, some 50, none⟩ emptyWorld
      (.rejected (JSVal.prim 0)) [] []).timerPending = true := by
  decide

/-- C1 amended: a request registered under an explicit controlKey has the
key entry removed from the map it was stored in on every settlement
(success, HTTP error, or transport rejection), and the timeout timer is
pending after settlement exactly when the transport rejected (the catch
block does not clear it); a request filed under the shared anonymous key
keeps its anonymous map entry after settlement. -/
theorem C1_settlement :
    (∀ (b : Bool) (o : ReqOptions) (w : World) (k : String) (outcome : FetchOutcome)
        (errHs : ErrHandlers) (respHs : ChainSlots JSVal),
      o.controlKey = some k → k ≠ "" →
      ahas (if b then w.globMap else w.instMap) k = false →
      (b = true → ahas w.instMap k = false) →
      aget (if b then (requestRun b o w outcome errHs respHs).world.globMap
        else (requestRun b o w outcome errHs respHs).world.instMap) k = none ∧
      (requestRun b o w outcome errHs respHs).timerPending =
        (timeoutActive o.timeout && outcome.isRejected)) ∧
    (∀ (b : Bool) (o : ReqOptions) (w : World) (outcome : FetchOutcome)
        (errHs : ErrHandlers) (respHs : ChainSlots JSVal),
      o.controlKey = none →
      (aget (if b then (requestRun b o w outcome errHs respHs).world.globMap
        else (requestRun b o w outcome errHs respHs).world.instMap)
        anonymousKey).isSome = true ∧
      (requestRun b o w outcome errHs respHs).timerPending =
        (timeoutActive o.timeout && outcome.isRejected)) := by
  constructor
  · intro b o w k outcome errHs respHs hk hk0 hfree hstatic
    obtain ⟨c, w1, hstart, hmaps, hab⟩ := requestStart_explicit b o w k hk hk0 hfree
    cases b with
    | false =>
      have hmaps' : w1.instMap = aset w.instMap k c ∧ w1.globMap = w.globMap := by
        simpa using hmaps
      have hhas1 : ahas w1.instMap k = true := by
        rw [hmaps'.1]; simp [ahas, aget_aset]
      have hone : aget (settleDelete ⟨some (Sig.ofCtrl c), some c, timeoutActive o.timeout,
          some k⟩ w1).instMap k = none := by
        rw [settleDelete_inst _ k w1 rfl hhas1]
        simp [aget_adel]
      have htwo : aget (settleDelete ⟨some (Sig.ofCtrl c), some c, timeoutActive o.timeout,
          some k⟩ (settleDelete ⟨some (Sig.ofCtrl c), some c, timeoutActive o.timeout,
          some k⟩ w1)).instMap k = none :=
        settleDelete_instMap_none _ _ k hone
      cases outcome with
      | rejected e =>
        rw [requestRun_rejected false o w e errHs respHs _ _ hstart]
        exact ⟨hone, by simp [FetchOutcome.isRejected]⟩
      | resolved ok t =>
        cases ok with
        | true =>
          cases hr : chainFold respHs (mkEnvelope t) with
          | ok r =>
            rw [requestRun_resolved_ok false o w t errHs respHs _ _ r hstart hr]
            exact ⟨hone, by simp [FetchOutcome.isRejected]⟩
          | error e2 =>
            rw [requestRun_resolved_ok_err false o w t errHs respHs _ _ e2 hstart hr]
            exact ⟨htwo, by simp [FetchOutcome.isRejected]⟩
        | false =>
          rw [requestRun_resolved_bad false o w t errHs respHs _ _ hstart]
          exact ⟨htwo, by simp [FetchOutcome.isRejected]⟩
    | true =>
      have hmaps' : w1.globMap = aset w.globMap k c ∧ w1.instMap = w.instMap := by
        simpa using hmaps
      have hhas1 : ahas w1.instMap k = false := by
        rw [hmaps'.2]; exact hstatic rfl
      have hone : aget (settleDelete ⟨some (Sig.ofCtrl c), some c, timeoutActive o.timeout,
          some k⟩ w1).globMap k = none := by
        rw [settleDelete_glob _ k w1 rfl hhas1]
        rw [hmaps'.1]
        show aget (adel (aset w.globMap k c) k) k = none
        simp [aget_adel]
      have htwo : aget (settleDelete ⟨some (Sig.ofCtrl c), some c, timeoutActive o.timeout,
          some k⟩ (settleDelete ⟨some (Sig.ofCtrl c), some c, timeoutActive o.timeout,
          some k⟩ w1)).globMap k = none :=
        settleDelete_globMap_none _ _ k hone
      cases outcome with
      | rejected e =>
        rw [requestRun_rejected true o w e errHs respHs _ _ hstart]
        exact ⟨hone, by simp [FetchOutcome.isRejected]⟩
      | resolved ok t =>
        cases ok with
        | true =>
          cases hr : chainFold respHs (mkEnvelope t) with
          | ok r =>
            rw [requestRun_resolved_ok true o w t errHs respHs _ _ r hstart hr]
            exact ⟨hone, by simp [FetchOutcome.isRejected]⟩
          | error e2 =>
            rw [requestRun_resolved_ok_err true o w t errHs respHs _ _ e2 hstart hr]
            exact ⟨htwo, by simp [FetchOutcome.isRejected]⟩
        | false =>
          rw [requestRun_resolved_bad true o w t errHs respHs _ _ hstart]
          exact ⟨htwo, by simp [FetchOutcome.isRejected]⟩
  · intro b o w outcome errHs respHs hck
    obtain ⟨c, w1, hstart, hanon, hother, hab⟩ := requestStart_anonymous b o w hck
    have hsd : settleDelete ⟨some (Sig.ofCtrl c), some c, timeoutActive o.timeout, none⟩ w1 =
        w1 := settleDelete_anon _ _ rfl
    cases outcome with
    | rejected e =>
      rw [requestRun_rejected b o w e errHs respHs _ _ hstart]
      refine ⟨?_, by simp [FetchOutcome.isRejected]⟩
      simp [hsd, hanon]
    | resolved ok t =>
      cases ok with
      | true =>
        cases hr : chainFold respHs (mkEnvelope t) with
        | ok r =>
          rw [requestRun_resolved_ok b o w t errHs respHs _ _ r hstart hr]
          refine ⟨?_, by simp [FetchOutcome.isRejected]⟩
          simp [hsd, hanon]
        | error e2 =>
          rw [requestRun_resolved_ok_err b o w t errHs respHs _ _ e2 hstart hr]
          refine ⟨?_, by simp [FetchOutcome.isRejected]⟩
          simp [hsd, hanon]
      | false =>
        rw [requestRun_resolved_bad b o w t errHs respHs _ _ hstart]
        refine ⟨?_, by simp [FetchOutcome.isRejected]⟩
        simp [hsd, hanon]

/-- Witness for C1 at a concrete explicit-key request with a timeout
whose transport rejects. -/
theorem C1_witness :
    (⟨none, some 50, some "ka"⟩ : ReqOptions).controlKey = some "ka" ∧
    ("ka" : String) ≠ "" ∧
    ahas (if false then emptyWorld.globMap else emptyWorld.instMap) "ka" = false ∧
    (aget (if false then (requestRun false ⟨none, some 50, some "ka"⟩ emptyWorld
        (.rejected (JSVal.prim 0)) [] []).world.globMap
      else (requestRun false ⟨none, some 50, some "ka"⟩ emptyWorld
        (.rejected (JSVal.prim 0)) [] []).world.instMap) "ka" = none ∧
    (requestRun false ⟨none, some 50, some "ka"⟩ emptyWorld
      (.rejected (JSVal.prim 0)) [] []).timerPending =
        (timeoutActive (some 50) && (FetchOutcome.rejected (JSVal.prim 0)).isRejected)) :=
  ⟨rfl, by decide, by decide,
   C1_settlement.1 false ⟨none, some 50, some "ka"⟩ emptyWorld "ka"
     (.rejected (JSVal.prim 0)) [] [] rfl (by decide) (by decide)
     (fun hb => Bool.noConfusion hb)⟩

/-- C7: two calls issued in the same scope with no explicit controlKey
while the first is pending are wired to the same controller, registered
under the shared anonymous key, and one cancellation through the
anonymous key aborts that shared controller and hence both calls. -/
theorem C7_anonymous_sharing (b : Bool) (o1 o2 : ReqOptions) (w : World)
    (h1 : o1.controlKey = none) (h2 : o2.controlKey = none)
    (hglob : b = false → aget w.globMap anonymousKey = none) :
    ∃ c w1 w2,
      requestStart b o1 w =
        .started ⟨some (Sig.ofCtrl c), some c, timeoutActive o1.timeout, none⟩ w1 ∧
      requestStart b o2 w1 =
        .started ⟨some (Sig.ofCtrl c), some c, timeoutActive o2.timeout, none⟩ w2 ∧
      c ∈ (cancelRequest anonymousKey w2).aborted := by
  obtain ⟨c, w1, hstart1, hanon1, hother1, hab1⟩ := requestStart_anonymous b o1 w h1
  obtain ⟨w2, hstart2, hi2, hg2, hab2⟩ := requestStart_anon_reuse b o2 w1 c h2 hanon1
  refine ⟨c, w1, w2, hstart1, hstart2, ?_⟩
  cases b with
  | true =>
    have hc2 : aget w2.globMap anonymousKey = some c := by
      rw [hg2]; simpa using hanon1
    simp [cancelRequest, hc2]
  | false =>
    have hw1g : w1.globMap = w.globMap := by simpa using hother1
    have hcg : aget w2.globMap anonymousKey = none := by
      rw [hg2, hw1g]; exact hglob rfl
    have hci : aget w2.instMap anonymousKey = some c := by
      rw [hi2]; simpa using hanon1
    simp [cancelRequest, hcg, hci]

/-- Witness for C7 at two concrete anonymous calls on a fresh world. -/
theorem C7_witness :
    plainOptions.controlKey = none ∧
    (∃ c w1 w2,
      requestStart false plainOptions emptyWorld =
        .started ⟨some (Sig.ofCtrl c), some c, timeoutActive plainOptions.timeout, none⟩ w1 ∧
      requestStart false plainOptions w1 =
        .started ⟨some (Sig.ofCtrl c), some c, timeoutActive plainOptions.timeout, none⟩ w2 ∧
      c ∈ (cancelRequest anonymousKey w2).aborted) :=
  ⟨rfl, C7_anonymous_sharing false plainOptions plainOptions emptyWorld rfl rfl
    (fun _ => rfl)⟩

theorem errWalk_eq_spec (hs : ErrHandlers) : ∀ e,
    executeErrorInterceptors hs e = errorWalkSpec (hs.filterMap id) e := by
  induction hs with
  | nil => intro e; rfl
  | cons h t ih =>
    intro e
    cases h with
    | none => exact ih e
    | some f =>
      cases hf : f e with
      | thrown ex => simp [executeErrorInterceptors, errorWalkSpec, List.filterMap_cons, hf, ih]
      | ret v =>
        by_cases hr : isRespShaped v
        · simp [executeErrorInterceptors, errorWalkSpec, List.filterMap_cons, hf, hr]
        · by_cases he : isErrShaped v
          · simp [executeErrorInterceptors, errorWalkSpec, List.filterMap_cons, hf, hr, he, ih]
          · simp [executeErrorInterceptors, errorWalkSpec, List.filterMap_cons, hf, hr, he, ih]

theorem errWalk_ok_shaped (hs : ErrHandlers) : ∀ e v,
    executeErrorInterceptors hs e = .ok v → isRespShaped v = true := by
  induction hs with
  | nil =>
    intro e v h
    simp [executeErrorInterceptors] at h
  | cons hh t ih =>
    intro e v h
    cases hh with
    | none => exact ih e v h
    | some f =>
      cases hf : f e with
      | thrown ex =>
        rw [show executeErrorInterceptors (some f :: t) e = executeErrorInterceptors t ex by
          simp [executeErrorInterceptors, hf]] at h
        exact ih ex v h
      | ret v2 =>
        by_cases hr : isRespShaped v2
        · have h' : Except.ok (ε := JSVal) v2 = .ok v := by
            rw [← h]; simp [executeErrorInterceptors, hf, hr]
          have hv : v2 = v := by simpa using h'
          rw [← hv]; exact hr
        · by_cases he : isErrShaped v2
          · rw [show executeErrorInterceptors (some f :: t) e = executeErrorInterceptors t v2 by
              simp [executeErrorInterceptors, hf, hr, he]] at h
            exact ih v2 v h
          · rw [show executeErrorInterceptors (some f :: t) e = executeErrorInterceptors t e by
              simp [executeErrorInterceptors, hf, hr, he]] at h
            exact ih e v h

/-- C8: the error-interceptor walk of a failed call visits the registered
fulfill handlers in order with the current error (it equals the reference
walk over the registered handlers); a recovery value always carries data
and status fields; when the walk recovers, the request resolves with
exactly that value, whatever the response chain would do (it is not
re-run on the recovered value); and when the walk is exhausted the final
current error is thrown to the caller. -/
theorem C8_error_recovery (hs : ErrHandlers) (e : JSVal) :
    executeErrorInterceptors hs e = errorWalkSpec (hs.filterMap id) e ∧
    (∀ v, executeErrorInterceptors hs e = .ok v → isRespShaped v = true) ∧
    (∀ (v : JSVal) (b : Bool) (o : ReqOptions) (w : World) (respHs : ChainSlots JSVal),
      o.controlKey = none → executeErrorInterceptors hs e = .ok v →
      (requestRun b o w (.rejected e) hs respHs).result = .ok v) ∧
    (∀ (e2 : JSVal) (b : Bool) (o : ReqOptions) (w : World) (respHs : ChainSlots JSVal),
      o.controlKey = none → executeErrorInterceptors hs e = .error e2 →
      (requestRun b o w (.rejected e) hs respHs).result = .error (.pipeErr e2)) := by
  refine ⟨errWalk_eq_spec hs e, errWalk_ok_shaped hs e, ?_, ?_⟩
  · intro v b o w respHs hck hok
    obtain ⟨c, w1, hstart, _, _, _⟩ := requestStart_anonymous b o w hck
    rw [requestRun_rejected b o w e hs respHs _ _ hstart]
    simp [pipeResult, hok]
  · intro e2 b o w respHs hck herr
    obtain ⟨c, w1, hstart, _, _, _⟩ := requestStart_anonymous b o w hck
    rw [requestRun_rejected b o w e hs respHs _ _ hstart]
    simp [pipeResult, herr]

/-- Witness for C8: a concrete recovering handler resolves the request
with the recovered value even though a response interceptor would have
replaced it. -/
theorem C8_witness :
    plainOptions.controlKey = none ∧
    executeErrorInterceptors recoverHandlers (JSVal.prim 0) =
      .ok (JSVal.obj true true false 7) ∧
    (requestRun false plainOptions emptyWorld (.rejected (JSVal.prim 0)) recoverHandlers
      replaceRespSlots).result = .ok (JSVal.obj true true false 7) :=
  ⟨rfl, rfl,
   (C8_error_recovery recoverHandlers (JSVal.prim 0)).2.2.1 (JSVal.obj true true false 7)
     false plainOptions emptyWorld replaceRespSlots rfl rfl⟩

end HttpModel
